import Mathlib

/-!
Verification of the exstack routing engine (`src/router`): the RegExp-based
matcher (`reg-exp.ts`), its build step (`buildMatcherFromPreprocessedRoutes`),
the middleware lookup (`findMiddleware`), the dispatching layer
(`Router.dispatch` in `router.ts`), and the error type (`errors.ts`).

The repository ships `reg-exp.ts`, `router.ts`, `types.ts` and `errors.ts`;
the files `algo.ts` (the shared trie used to compile the composite regular
expression), `match.ts` (the lazily-built `match`), `smart.ts`
(`SmartRouter`), `trie-tree.ts` (`TrieRouter`) and the router utilities
(`buildWildcardRegExp`, `checkOptionalParameter`) are imported by the shipped
code but are not part of the source tree; those parts are modelled from the
specification, as marked on each definition.

JavaScript string-keyed objects are modelled as insertion-ordered association
lists (`Object.keys` enumerates string keys in insertion order; all keys here
are non-numeric strings). Thrown exceptions are modelled with `Except`.
-/

namespace Exstack

/-! ### String and association-list helpers -/

/-- Does `pre` start the string `s`?  (Structural replacement for
`String.startsWith`, so that concrete route tables evaluate by kernel
reduction.) -/
def strStartsWith (s pre : String) : Bool := pre.data.isPrefixOf s.data

/-- Does `suf` end the string `s`?  (Structural replacement for
`String.endsWith`.) -/
def strEndsWith (s suf : String) : Bool := suf.data.reverse.isPrefixOf s.data.reverse

/-- Split a character list at every occurrence of `sep`, like the JavaScript
`String.prototype.split` with a one-character separator. -/
def splitChar (sep : Char) : List Char → List (List Char)
  | [] => [[]]
  | c :: cs =>
    let r := splitChar sep cs
    if c = sep then [] :: r
    else
      match r with
      | [] => [[c]]
      | h :: t => (c :: h) :: t

/-- String-level split on a one-character separator. -/
def splitStr (sep : Char) (s : String) : List String :=
  (splitChar sep s.data).map String.mk

/-- Does the character list `n` occur as a contiguous sublist of `hay`? -/
def listHasSub (n : List Char) : List Char → Bool
  | [] => decide (n = [])
  | c :: cs => n.isPrefixOf (c :: cs) || listHasSub n cs

/-- Number of positions at which `n` occurs in `hay`.  For the two-character
needle `"/:"` occurrences cannot overlap, so this equals the count returned by
the global regex match in the source (`path.match(/\/:/g)`). -/
def listCountSub (n : List Char) : List Char → Nat
  | [] => 0
  | c :: cs => (if n.isPrefixOf (c :: cs) then 1 else 0) + listCountSub n cs

/-- The `paramCount` computed in `RegExpRouter.add`:
`(path.match(/\/:/g) || []).length`. -/
def countParamSeg (path : String) : Nat := listCountSub ['/', ':'] path.data

/-- The static-path test from `buildMatcherFromPreprocessedRoutes`:
`!/\*|\/:/.test(path)` — a path is static when it contains neither `*` nor the
substring `/:`. -/
def isStaticPath (path : String) : Bool :=
  !(path.data.contains '*' || listHasSub ['/', ':'] path.data)

/-- An insertion-ordered string-keyed map, modelling a JavaScript object. -/
abbrev SMap (α : Type) := List (String × α)

/-- Property read: the value at the first entry whose key equals `k`. -/
def slook {α : Type} (l : SMap α) (k : String) : Option α :=
  (l.find? (fun e => e.1 == k)).map (·.2)

/-- `Object.keys`, in insertion order. -/
def skeys {α : Type} (l : SMap α) : List String := l.map (·.1)

/-- Property assignment: replace in place when the key exists, append
otherwise (JavaScript keeps the original insertion position on update). -/
def sset {α : Type} (l : SMap α) (k : String) (v : α) : SMap α :=
  if (slook l k).isSome then l.map (fun e => if e.1 = k then (k, v) else e)
  else l ++ [(k, v)]

/-- The `||=` idiom on an object slot holding an array: an existing array
(even an empty one) is truthy, so assignment happens only when the key is
absent. -/
def ssetIfAbsent {α : Type} (l : SMap α) (k : String) (v : α) : SMap α :=
  if (slook l k).isSome then l else l ++ [(k, v)]

/-- Lookup in a `Nat`-keyed association list (capture assignments). -/
def natLook {α : Type} (l : List (Nat × α)) (k : Nat) : Option α :=
  (l.find? (fun e => e.1 == k)).map (·.2)

/-- Stable insertion: `x` goes after every element `y` with `le y x`.
JavaScript's `Array.prototype.sort` is stable and places `a` before `b`
exactly when the comparator returns a non-positive value. -/
def insertSorted {α : Type} (le : α → α → Bool) (x : α) : List α → List α
  | [] => [x]
  | y :: ys => if le y x then y :: insertSorted le x ys else x :: y :: ys

/-- Stable sort processing elements left to right, so that elements the
comparator ties keep their original relative order. -/
def stableSortBy {α : Type} (le : α → α → Bool) (l : List α) : List α :=
  l.foldl (fun acc x => insertSorted le x acc) []

/-! ### Route-pattern segments -/

/-- One segment of a parsed route pattern: a static literal, a named
parameter (with an optional custom constraint text from `:name` followed by a
braced expression), or a trailing wildcard. -/
inductive Seg where
  | statik (s : String)
  | param (name : String) (re : Option String)
  | wildcard
deriving DecidableEq

/-- Parse one `/`-separated piece of a route pattern. -/
def parseSeg (s : String) : Seg :=
  if s == "*" then .wildcard
  else if strStartsWith s ":" then
    let body := s.drop 1
    if strEndsWith body "\x7d" then
      match splitStr '\x7b' body with
      | [n, r] => .param n (some (r.dropRight 1))
      | _ => .param body none
    else .param body none
  else .statik s

/-- Split a route pattern into segments.  Patterns start with `/`, except the
bare `*` produced by the `path === '/*' → '*'` normalization in
`RegExpRouter.add`, which matches every path. -/
def parsePattern (path : String) : List Seg :=
  if path == "*" then [.wildcard]
  else ((splitStr '/' path).drop 1).map parseSeg

/-- Split a request path into segments (the part after the leading `/`). -/
def pathSegments (path : String) : List String := (splitStr '/' path).drop 1

/-- Modelled from the spec: `checkOptionalParameter` is not in the source
tree.  A pattern whose trailing parameter is marked optional (`/users/:id?`)
"expands into two sibling patterns at registration time: one with the segment
present, one with it elided"; any other pattern is left alone (`null`). -/
def checkOptionalParameter (path : String) : Option (List String) :=
  if !strEndsWith path "?" then none
  else
    match ((splitStr '/' path).drop 1).reverse with
    | [] => none
    | last :: revInit =>
      if strStartsWith last ":" && strEndsWith last "?" then
        let base := "/" ++ String.intercalate "/" revInit.reverse
        let full := "/" ++ String.intercalate "/" (revInit.reverse ++ [last.dropRight 1])
        some [base, full]
      else none

/-- Modelled from the spec: `buildWildcardRegExp` is not in the source tree.
A key of bare `*` matches every path; a key with a trailing `/*` matches its
prefix exactly or the prefix followed by `/` and anything (the source builds
`^prefix(?:|/.*)$` with all other characters escaped); any other key matches
only itself. -/
def wildcardTest (key path : String) : Bool :=
  if key == "*" then true
  else if strEndsWith key "/*" then
    let pre := key.dropRight 2
    path == pre || strStartsWith path (pre ++ "/")
  else path == key

/-! ### Errors (`errors.ts`) -/

/-- The error message thrown by `RegExpRouter.add` once the pre-build maps
have been released (`MESSAGE_MATCHER_IS_ALREADY_BUILT`). -/
def MESSAGE_MATCHER_IS_ALREADY_BUILT : String :=
  "Matcher is already built — routes can no longer be added."

/-- The errors the routing engine can raise: `UnsupportedPathError` carrying
the offending path, and the generic `Error` carrying
`MESSAGE_MATCHER_IS_ALREADY_BUILT` (the spec's "matcher already built"
error). -/
inductive RouterError where
  | unsupportedPath (path : String)
  | matcherAlreadyBuilt
deriving DecidableEq

/-! ### The shared trie behind the composite regular expression

Modelled from the spec: `algo.ts` (the `Trie` with `PATH_ERROR`) is not in
the source tree.  Patterns are inserted "into the shared structure"; a node's
children are keyed by the static segment text or, for a parameter, by its
constraint text (so two parameters with the same constraint share one slot
and one capture position, and "a custom regex constraint [that] differs
between two patterns occupying the same structural slot" lands in a fresh
slot next to an existing one, which is rejected).  Wildcard children are kept
apart and never conflict.  Inserting a static segment where a parameter slot
exists, or a parameter where any non-wildcard child exists, or reaching an
already-terminal node, raises the path error that the build step converts to
`UnsupportedPathError`. -/

/-- A child key in the shared trie. -/
inductive RKey where
  | statik (s : String)
  | pattern (re : String)
  | wildcard
deriving DecidableEq

/-- A node of the shared trie: an optional terminal route index, an optional
capture-variable index (for parameter nodes), and ordered children. -/
inductive RTrie where
  | node (idx : Option Nat) (varIdx : Option Nat) (children : List (RKey × RTrie))

def RTrie.idx : RTrie → Option Nat
  | .node i _ _ => i

def RTrie.varIdx : RTrie → Option Nat
  | .node _ v _ => v

def RTrie.children : RTrie → List (RKey × RTrie)
  | .node _ _ c => c

def isPatternKey : RKey → Bool
  | .pattern _ => true
  | _ => false

def isWildcardKey : RKey → Bool
  | .wildcard => true
  | _ => false

def lookupChild (ch : List (RKey × RTrie)) (k : RKey) : Option RTrie :=
  (ch.find? (fun c => decide (c.1 = k))).map (·.2)

def setChild (ch : List (RKey × RTrie)) (k : RKey) (t : RTrie) : List (RKey × RTrie) :=
  ch.map (fun c => if c.1 = k then (k, t) else c)

/-- Insert a pattern at route index `j`.  `checkOnly` is the
`pathErrorCheckOnly` flag used for static routes: conflicts are still
detected but no nodes are created and no terminal is written.  Returns the
updated trie, the next free capture-variable index, and the association list
of `(parameter name, capture-variable index)` in segment order.  `.error ()`
is the trie's path error. -/
def rinsert : RTrie → List Seg → Nat → Bool → Nat →
    Except Unit (RTrie × Nat × List (String × Nat))
  | .node i v ch, [], j, checkOnly, ctr =>
    if i.isSome then .error ()
    else if checkOnly then .ok (.node i v ch, ctr, [])
    else .ok (.node (some j) v ch, ctr, [])
  | .node i v ch, .statik s :: rest, j, checkOnly, ctr =>
    match lookupChild ch (.statik s) with
    | some child =>
      match rinsert child rest j checkOnly ctr with
      | .error e => .error e
      | .ok (child2, ctr2, assoc) =>
        .ok (.node i v (setChild ch (.statik s) child2), ctr2, assoc)
    | none =>
      if ch.any (fun c => isPatternKey c.1) then .error ()
      else if checkOnly then .ok (.node i v ch, ctr, [])
      else
        match rinsert (.node none none []) rest j checkOnly ctr with
        | .error e => .error e
        | .ok (child2, ctr2, assoc) =>
          .ok (.node i v (ch ++ [(RKey.statik s, child2)]), ctr2, assoc)
  | .node i v ch, .param name re :: rest, j, checkOnly, ctr =>
    let key : RKey := .pattern (re.getD "[^/]+")
    match lookupChild ch key with
    | some child =>
      let cv := child.varIdx.getD 0
      match rinsert child rest j checkOnly ctr with
      | .error e => .error e
      | .ok (child2, ctr2, assoc) =>
        .ok (.node i v (setChild ch key child2), ctr2,
             if checkOnly then assoc else (name, cv) :: assoc)
    | none =>
      if ch.any (fun c => !isWildcardKey c.1) then .error ()
      else if checkOnly then .ok (.node i v ch, ctr, [])
      else
        match rinsert (.node none (some ctr) []) rest j checkOnly (ctr + 1) with
        | .error e => .error e
        | .ok (child2, ctr2, assoc) =>
          .ok (.node i v (ch ++ [(key, child2)]), ctr2, (name, ctr) :: assoc)
  | .node i v ch, .wildcard :: rest, j, checkOnly, ctr =>
    match lookupChild ch .wildcard with
    | some child =>
      match rinsert child rest j checkOnly ctr with
      | .error e => .error e
      | .ok (child2, ctr2, assoc) =>
        .ok (.node i v (setChild ch .wildcard child2), ctr2, assoc)
    | none =>
      if ch.any (fun c => !isWildcardKey c.1) then .error ()
      else if checkOnly then .ok (.node i v ch, ctr, [])
      else
        match rinsert (.node none none []) rest j checkOnly ctr with
        | .error e => .error e
        | .ok (child2, ctr2, assoc) =>
          .ok (.node i v (ch ++ [(RKey.wildcard, child2)]), ctr2, assoc)

/-- Modelled from the spec: the default parameter constraint `[^/]+` captures
one non-empty path segment.  A custom constraint further restricts the
captured text; that restriction is not modelled (no verified claim matches a
request through a constrained parameter), only the constraint's identity is
kept for the build-time conflict detection the spec describes. -/
def paramSegMatches (_re : String) (s : String) : Bool := !s.isEmpty

def wildIdx (ch : List (RKey × RTrie)) : Option Nat :=
  match lookupChild ch .wildcard with
  | some t => t.idx
  | none => none

def patChild (ch : List (RKey × RTrie)) : Option (String × RTrie) :=
  ch.findSome? (fun c =>
    match c with
    | (.pattern re, t) => some (re, t)
    | _ => none)

/-- Modelled from the spec: matching a path against the compiled composite
regular expression.  The alternation generated from the trie tries, at each
node, the terminal marker first, then static children, then the parameter
slot, with wildcard alternatives last, backtracking between them; this walk
reproduces that ordered choice.  Returns the matched route index and the
`(capture-variable, captured text)` assignments. -/
def rmatch : RTrie → List String → Option (Nat × List (Nat × String))
  | .node i _ ch, [] =>
    match i with
    | some j => some (j, [])
    | none => (wildIdx ch).map (fun j => (j, []))
  | .node _ _ ch, s :: rest =>
    (match lookupChild ch (.statik s) with
     | some child => rmatch child rest
     | none => none)
    <|>
    (match patChild ch with
     | some (re, child) =>
       if paramSegMatches re s then
         (rmatch child rest).map (fun r => (r.1, (child.varIdx.getD 0, s) :: r.2))
       else none
     | none => none)
    <|>
    (wildIdx ch).map (fun j => (j, []))

/-! ### Building a matcher (`buildMatcherFromPreprocessedRoutes`) -/

/-- A compiled matcher, the source's `[regexp, handlerMap, staticMap]`
triple: the trie stands for the composite regular expression (with
`varCount` capture variables), `handlerMap` maps the matched alternative's
route index to its handlers with their parameter-index maps, and `staticMap`
is the direct lookup table for parameter-free paths. -/
structure RMatcher (T : Type) where
  trie : RTrie
  varCount : Nat
  handlerMap : List (List (T × SMap Nat))
  staticMap : SMap (List (T × SMap Nat))

/-- The `nullMatcher`: its regular expression `/^$/` matches no request path
(request paths are never empty), and both maps are empty. -/
def nullMatcher (T : Type) : RMatcher T := ⟨.node none none [], 0, [], []⟩

/-- The comparator from the build step's sort, read as "place `a` before or
with `b`": the source comparator is
`isStaticA ? 1 : isStaticB ? -1 : pathA.length - pathB.length`, and a stable
sort places `a` before `b` exactly when it returns a non-positive value. -/
def routeLE {α : Type} (a b : Bool × String × α) : Bool :=
  if a.1 then false else if b.1 then true else decide (a.2.1.length ≤ b.2.1.length)

/-- The parameter-index map of one handler: the source walks
`paramAssoc[paramCount-1] .. paramAssoc[0]` assigning `map[key] = value`, and
afterwards rewrites every value through the `paramReplacementMap` produced by
`trie.buildRegExp()`.  Modelled from the spec for the missing `buildRegExp`:
capture variable `v` becomes capture-group position `v + 1` (position `0` of
the match array is the whole matched path). -/
def paramIndexMapOf (assoc : List (String × Nat)) (pc : Nat) : SMap Nat :=
  ((List.range pc).reverse).foldl
    (fun m k =>
      match assoc.get? k with
      | some kv => sset m kv.1 (kv.2 + 1)
      | none => m)
    []

/-- The loop body of `buildMatcherFromPreprocessedRoutes`: static routes go
to the static map and are trie-inserted with `pathErrorCheckOnly`; dynamic
routes get the next route index (the source's `j++`) and their handler data.
A trie path error becomes `UnsupportedPathError` for the path being
inserted. -/
def buildLoop {T : Type} :
    List (Bool × String × List (T × Nat)) → RTrie → Nat →
    SMap (List (T × SMap Nat)) → List (List (T × SMap Nat)) →
    Except RouterError (RTrie × Nat × SMap (List (T × SMap Nat)) × List (List (T × SMap Nat)))
  | [], trie, ctr, sm, hd => .ok (trie, ctr, sm, hd)
  | (isStat, path, handlers) :: rest, trie, ctr, sm, hd =>
    let sm := if isStat then sset sm path (handlers.map (fun hpc => (hpc.1, ([] : SMap Nat)))) else sm
    match rinsert trie (parsePattern path) hd.length isStat ctr with
    | .error _ => .error (.unsupportedPath path)
    | .ok (trie2, ctr2, assoc) =>
      if isStat then buildLoop rest trie2 ctr2 sm hd
      else buildLoop rest trie2 ctr2 sm
        (hd ++ [handlers.map (fun hpc => (hpc.1, paramIndexMapOf assoc hpc.2))])

/-- `buildMatcherFromPreprocessedRoutes`: empty input yields the null
matcher; otherwise the routes are flagged with the static-path test, stably
sorted with the source's comparator, and folded through the trie.  The
source's `indexReplacementMap` renumbering is modelled as the identity (route
indices are already dense here). -/
def buildMatcherFromPreprocessedRoutes {T : Type} (routes : List (String × List (T × Nat))) :
    Except RouterError (RMatcher T) :=
  if routes.isEmpty then .ok (nullMatcher T)
  else
    let flagged := routes.map (fun r => (isStaticPath r.1, r.1, r.2))
    let sorted := stableSortBy routeLE flagged
    match buildLoop sorted (.node none none []) 0 [] [] with
    | .error e => .error e
    | .ok (trie, ctr, sm, hd) => .ok ⟨trie, ctr, hd, sm⟩

/-! ### Match results (`types.ts`, `Result<T>`) -/

/-- The result of a match: either the index-based shape
`[[T, ParamIndexMap][], ParamStash]` produced by the RegExp matcher, or the
resolved shape `[[T, Params][]]` produced by the trie matcher. -/
inductive MatchResult (T : Type) where
  | indexed (hs : List (T × SMap Nat)) (stash : List String)
  | resolved (hs : List (T × SMap String))
deriving DecidableEq

/-- The ordered handler payloads of a result (`result[0]` in the source). -/
def handlersOf {T : Type} : MatchResult T → List T
  | .indexed hs _ => hs.map (·.1)
  | .resolved hs => hs.map (·.1)

/-- Modelled from the spec: the parameter accessor exposed to handlers
resolves a name for handler `i` — through the stash for index-based results,
directly for resolved results — returning the captured string or nothing. -/
def resolvedParamAt {T : Type} (r : MatchResult T) (i : Nat) (name : String) :
    Option String :=
  match r with
  | .indexed hs stash => (hs.get? i).bind (fun h => (slook h.2 name).bind (fun k => stash.get? k))
  | .resolved hs => (hs.get? i).bind (fun h => slook h.2 name)

/-- Modelled from the spec (`match.ts` is not in the source tree): the static
lookup table is consulted first and bypasses the regular expression; a failed
regex match is the empty result `[[], emptyParam]`; a successful one pairs
the matched alternative's handlers with the match array (the whole path at
position `0`, capture variable `v` at position `v + 1`). -/
def matcherMatch {T : Type} (m : RMatcher T) (path : String) : MatchResult T :=
  match slook m.staticMap path with
  | some hs => .indexed hs []
  | none =>
    match rmatch m.trie (pathSegments path) with
    | none => .indexed [] []
    | some (j, assigns) =>
      .indexed ((m.handlerMap.get? j).getD [])
        (path :: (List.range m.varCount).map (fun v => (natLook assigns v).getD ""))

/-! ### `RegExpRouter` (`reg-exp.ts`) -/

/-- The per-method maps of middleware (or routes): method name → path →
handlers with their registration-time `paramCount`. -/
abbrev MMap (T : Type) := SMap (SMap (List (T × Nat)))

/-- `findMiddleware`: visit the keys in descending length (stable for ties),
return a copy of the first bucket whose wildcard pattern matches the path;
`undefined` when the map itself is missing or nothing matches. -/
def findMiddleware {T : Type} (mw : Option (SMap (List (T × Nat)))) (path : String) :
    Option (List (T × Nat)) :=
  match mw with
  | none => none
  | some m =>
    (stableSortBy (fun a b => decide (b.length ≤ a.length)) (skeys m)).findSome?
      (fun k => if wildcardTest k path then slook m k else none)

/-- The state of a `RegExpRouter`: the pre-build `#middleware` and `#routes`
maps (released — set to `undefined` — once matchers are built) and the
memoized matcher map created on the first `match()`. -/
structure RERouter (T : Type) where
  middleware : Option (MMap T)
  routes : Option (MMap T)
  matchers : Option (SMap (Option (RMatcher T)))

/-- The constructor: both maps hold one empty `ALL` bucket. -/
def REinit (T : Type) : RERouter T :=
  ⟨some [("ALL", [])], some [("ALL", [])], none⟩

/-- Creating a missing method bucket: `map[method] = {}` then a copy of every
`ALL` entry (`map[method][p] = [...map.ALL[p]]`). -/
def inheritAll {T : Type} (m : MMap T) (method : String) : MMap T :=
  sset m method ((slook m "ALL").getD [])

/-- The initializer expression of the `||=` assignments in `add`:
`findMiddleware(middleware[m], p) || findMiddleware(middleware.ALL, p) || []`. -/
def mwInit {T : Type} (mw : MMap T) (m p : String) : List (T × Nat) :=
  ((findMiddleware (slook mw m) p).orElse (fun _ => findMiddleware (slook mw "ALL") p)).getD []

/-- Update every value of a string-keyed map in place, the shape of every
`Object.keys(x).forEach(...)` mutation loop in `add` (each key is visited
once, keys are unchanged). -/
def mapVals {α : Type} (f : String → α → α) (l : SMap α) : SMap α :=
  l.map (fun e => (e.1, f e.1 e.2))

/-- One step of the wildcard branch's `middleware[mk][path] ||= ...`
assignment loop; later steps observe earlier steps' assignments. -/
def ensureWildcardAt {T : Type} (mw : MMap T) (mk path : String) : MMap T :=
  mapVals (fun k b => if k == mk then ssetIfAbsent b path (mwInit mw k path) else b) mw

/-- The wildcard branch's push loops: for every selected method bucket,
append the handler to every path key the wildcard pattern matches. -/
def pushWildcard {T : Type} (method path : String) (handler : T) (pc : Nat) (m : MMap T) :
    MMap T :=
  mapVals (fun mk b =>
    if method == "ALL" || mk == method then
      mapVals (fun p l => if wildcardTest path p then l ++ [(handler, pc)] else l) b
    else b) m

/-- The non-wildcard branch: for each expanded path (optional-parameter
expansion), initialize the route bucket from the matching middleware when the
key is new, then push the handler with its adjusted parameter count (the
source's `paramCount - paths.length + i + 1`, reordered to stay
non-negative). -/
def addRoutePaths {T : Type} (method : String) (handler : T) (pc : Nat)
    (paths : List String) (mw : MMap T) (rt : MMap T) : MMap T :=
  paths.enum.foldl
    (fun r ip =>
      mapVals (fun mk b =>
        if method == "ALL" || mk == method then
          sset b ip.2
            (((slook b ip.2).getD (mwInit mw mk ip.2))
              ++ [(handler, pc + ip.1 + 1 - paths.length)])
        else b) r)
    rt

/-- The wildcard branch of `add` (path ends in `*`), applied to the maps
after bucket inheritance: the `||=` key-creation loop (over every method for
an `ALL` registration, over the method's own bucket otherwise), then the two
push loops. -/
def REaddWild {T : Type} (mw rt : MMap T) (sms : Option (SMap (Option (RMatcher T))))
    (method path : String) (handler : T) : RERouter T :=
  let paramCount := countParamSeg path
  let mw2 :=
    if method == "ALL" then
      (skeys mw).foldl (fun acc mk => ensureWildcardAt acc mk path) mw
    else ensureWildcardAt mw method path
  ⟨some (pushWildcard method path handler paramCount mw2),
   some (pushWildcard method path handler paramCount rt), sms⟩

/-- The route branch of `add` (path does not end in `*`), applied to the
maps after bucket inheritance. -/
def REaddRoute {T : Type} (mw rt : MMap T) (sms : Option (SMap (Option (RMatcher T))))
    (method path : String) (handler : T) : RERouter T :=
  let paramCount := countParamSeg path
  let paths := (checkOptionalParameter path).getD [path]
  ⟨some mw, some (addRoutePaths method handler paramCount paths mw rt), sms⟩

/-- `RegExpRouter.add`.  Throws the "matcher already built" error when the
pre-build maps have been released; otherwise creates the method bucket (with
`ALL` inheritance) when needed, normalizes `/*` to `*`, and takes the
wildcard or the route branch. -/
def REadd {T : Type} (s : RERouter T) (method path0 : String) (handler : T) :
    Except RouterError (RERouter T) :=
  match s.middleware, s.routes with
  | some mw0, some rt0 =>
    let mw := if (slook mw0 method).isSome then mw0 else inheritAll mw0 method
    let rt := if (slook mw0 method).isSome then rt0 else inheritAll rt0 method
    let path := if path0 == "/*" then "*" else path0
    if strEndsWith path "*" then .ok (REaddWild mw rt s.matchers method path handler)
    else .ok (REaddRoute mw rt s.matchers method path handler)
  | _, _ => .error .matcherAlreadyBuilt

/-- The route collection inside `buildMatcher` for one of the two maps: the
method's own bucket when it is non-empty (setting `hasOwnRoute`), otherwise —
for a concrete method — the `ALL` bucket. -/
def collectRoutes {T : Type} (m : MMap T) (method : String) :
    List (String × List (T × Nat)) × Bool :=
  match slook m method with
  | some bucket =>
    if bucket.isEmpty then
      (if method == "ALL" then [] else (slook m "ALL").getD [], false)
    else (bucket, true)
  | none => (if method == "ALL" then [] else (slook m "ALL").getD [], false)

/-- `buildMatcher(method)`: `null` when neither map has anything for the
method, otherwise the compiled matcher over middleware entries followed by
route entries. -/
def REbuildMatcher {T : Type} (mw rt : MMap T) (method : String) :
    Except RouterError (Option (RMatcher T)) :=
  let c1 := collectRoutes mw method
  let c2 := collectRoutes rt method
  if method == "ALL" || c1.2 || c2.2 then
    (buildMatcherFromPreprocessedRoutes (c1.1 ++ c2.1)).map some
  else .ok none

/-- `buildAllMatchers`: build once per method named in either map (the
`matchers[method] ||= buildMatcher(method)` loop). -/
def REbuildAll {T : Type} (mw rt : MMap T) :
    Except RouterError (SMap (Option (RMatcher T))) :=
  (skeys rt ++ skeys mw).foldlM
    (fun acc method =>
      match slook acc method with
      | some _ => pure acc
      | none => do
        let m ← REbuildMatcher mw rt method
        pure (sset acc method m))
    []

/-- The matcher selection of the built `match`:
`matchers[method] || matchers[ALL]` (a `null` entry falls through to `ALL`;
the `ALL` matcher always exists for a built router). -/
def lookupAndMatch {T : Type} (ms : SMap (Option (RMatcher T))) (method path : String) :
    MatchResult T :=
  let m :=
    match slook ms method with
    | some (some m) => m
    | _ =>
      match slook ms "ALL" with
      | some (some m) => m
      | _ => nullMatcher T
  matcherMatch m path

/-- `RegExpRouter.match`: on the first call build all matchers and release
the pre-build maps (`#middleware = #routes = undefined`); afterwards answer
from the memoized matcher map.  A build failure surfaces as the thrown
`UnsupportedPathError`.  (The state with unbuilt matchers and released maps
is unreachable in the source; it is mapped to the already-built error.) -/
def REmatch {T : Type} (s : RERouter T) (method path : String) :
    Except RouterError (MatchResult T × RERouter T) :=
  match s.matchers with
  | some ms => .ok (lookupAndMatch ms method path, s)
  | none =>
    match s.middleware, s.routes with
    | some mw, some rt =>
      match REbuildAll mw rt with
      | .error e => .error e
      | .ok ms => .ok (lookupAndMatch ms method path, ⟨none, none, some ms⟩)
    | _, _ => .error .matcherAlreadyBuilt

/-! ### `TrieRouter` (modelled from the spec; `trie-tree.ts` is not in the
source tree) -/

/-- One registered trie route. -/
structure TRoute (T : Type) where
  method : String
  pattern : List Seg
  handler : T

/-- The trie matcher's state: per the spec it "never refuses to build", so
the registered routes in order are its whole observable state. -/
structure TrieState (T : Type) where
  routes : List (TRoute T)

/-- Modelled from the spec: trie registration; optional parameters expand
into the two sibling patterns, "both inserted as separate routes sharing the
same handler". -/
def Tadd {T : Type} (s : TrieState T) (method path : String) (handler : T) : TrieState T :=
  let paths := (checkOptionalParameter path).getD [path]
  ⟨s.routes ++ paths.map (fun p => ⟨method, parsePattern p, handler⟩)⟩

/-- Modelled from the spec: the trie walk matches a pattern segment-by
segment — literal text must coincide, a parameter captures one non-empty
segment, a trailing wildcard consumes the (possibly empty) remainder.  The
walk's literal/parameter/wildcard preference affects only the order the tree
is explored, not whether a given route matches, so matching is stated
per-route. -/
def segMatch : List Seg → List String → Option (SMap String)
  | [], [] => some []
  | .wildcard :: _, _ => some []
  | .statik t :: ps, x :: xs => if t == x then segMatch ps xs else none
  | .param n _ :: ps, x :: xs =>
    if x.isEmpty then none else (segMatch ps xs).map (fun l => (n, x) :: l)
  | _, _ => none

/-- Modelled from the spec: the trie match returns every registered route
whose method applies (its own method or `ALL`) and whose pattern matches, in
registration order, with resolved string parameters. -/
def Tmatch {T : Type} (s : TrieState T) (method path : String) : MatchResult T :=
  .resolved (s.routes.filterMap (fun r =>
    if r.method == method || r.method == "ALL" then
      (segMatch r.pattern (pathSegments path)).map (fun ps => (r.handler, ps))
    else none))

/-! ### `SmartRouter` (modelled from the spec; `smart.ts` is not in the
source tree) -/

/-- The one-time strategy choice. -/
inductive Strategy where
  | regExp
  | trie
deriving DecidableEq

/-- The smart matcher's state machine: `UNDECIDED` (`committed = none`) or
`COMMITTED(strategy)`, wrapping both inner matchers. -/
structure SmartState (T : Type) where
  re : RERouter T
  tr : TrieState T
  committed : Option Strategy

def SmartInit (T : Type) : SmartState T := ⟨REinit T, ⟨[]⟩, none⟩

/-- Modelled from the spec: registration forwards to both inner matchers;
once committed, "all further `add()` calls are invalid" and fail fast with
the explicit matcher-already-built error. -/
def Smartadd {T : Type} (s : SmartState T) (method path : String) (handler : T) :
    Except RouterError (SmartState T) :=
  match s.committed with
  | some _ => .error .matcherAlreadyBuilt
  | none =>
    match REadd s.re method path handler with
    | .error e => .error e
    | .ok re => .ok ⟨re, Tadd s.tr method path handler, none⟩

/-- Modelled from the spec: on the first `match()` the RegExp matcher's
build-and-match is attempted; an `UnsupportedPathError` commits to the trie
strategy and replays the match there, success commits to the RegExp
strategy; any other error class is not swallowed.  Once committed, calls go
straight to the committed matcher. -/
def Smartmatch {T : Type} (s : SmartState T) (method path : String) :
    Except RouterError (MatchResult T × SmartState T) :=
  match s.committed with
  | some .trie => .ok (Tmatch s.tr method path, s)
  | some .regExp =>
    match REmatch s.re method path with
    | .error e => .error e
    | .ok (r, re) => .ok (r, ⟨re, s.tr, some .regExp⟩)
  | none =>
    match REmatch s.re method path with
    | .ok (r, re) => .ok (r, ⟨re, s.tr, some .regExp⟩)
    | .error (.unsupportedPath _) => .ok (Tmatch s.tr method path, ⟨s.re, s.tr, some .trie⟩)
    | .error e => .error e

/-! ### `Router.dispatch` (`router.ts`) -/

/-- What the dispatch middleware does with a request: fall through to
`next()` when nothing matched, hand the error to `next(error)` when the
matcher threw, or invoke the matched handlers in order. -/
inductive Dispatched (T : Type) where
  | nextNoMatch
  | nextError (e : RouterError)
  | handled (handlers : List T)
deriving DecidableEq

/-- `Router.dispatch`: a `HEAD` request is matched as `GET`; an empty match
result falls through to `next()`; a thrown error is passed to `next(error)`;
otherwise the matched handlers run. -/
def dispatch {T : Type} (s : SmartState T) (method path : String) :
    Dispatched T × SmartState T :=
  let m := if method == "HEAD" then "GET" else method
  match Smartmatch s m path with
  | .error e => (.nextError e, s)
  | .ok (r, s2) =>
    if (handlersOf r).isEmpty then (.nextNoMatch, s2) else (.handled (handlersOf r), s2)

/-! ### Association-list lemmas -/

theorem slook_cons {α : Type} (e : String × α) (tl : SMap α) (k : String) :
    slook (e :: tl) k = if e.1 = k then some e.2 else slook tl k := by
  by_cases h : e.1 = k
  · simp [slook, List.find?, h]
  · have hb : (e.1 == k) = false := beq_eq_false_iff_ne.mpr h
    simp [slook, List.find?, hb, h]

theorem slook_map {α β : Type} (f : String → α → β) (l : SMap α) (k : String) :
    slook (l.map (fun e => (e.1, f e.1 e.2))) k = (slook l k).map (f k) := by
  induction l with
  | nil => rfl
  | cons e tl ih =>
    simp only [List.map_cons]
    rw [slook_cons, slook_cons]
    by_cases h : e.1 = k
    · subst h; simp
    · simp [h, ih]

theorem slook_mapset {α : Type} (l : SMap α) (k : String) (v : α) (p : String) :
    slook (l.map (fun e => if e.1 = k then (k, v) else e)) p =
      if p = k then (slook l k).map (fun _ => v) else slook l p := by
  induction l with
  | nil => by_cases hp : p = k <;> simp [slook, hp]
  | cons e tl ih =>
    simp only [List.map_cons]
    by_cases h : e.1 = k
    · simp only [h, if_true]
      rw [slook_cons, slook_cons, slook_cons]
      by_cases hp : p = k
      · simp [hp.symm, h]
      · have h1 : ¬(k = p) := fun hh => hp hh.symm
        have h2 : ¬(e.1 = p) := by rw [h]; exact h1
        simp [h1, h2, hp, ih]
    · simp only [h, if_false]
      rw [slook_cons, slook_cons, slook_cons]
      by_cases hp : p = k
      · subst hp
        simp [h, ih]
      · by_cases hep : e.1 = p
        · simp [hep, hp]
        · simp [hep, hp, ih]

theorem slook_append_single {α : Type} (l : SMap α) (k : String) (v : α) (p : String) :
    slook (l ++ [(k, v)]) p =
      match slook l p with
      | some w => some w
      | none => if p = k then some v else none := by
  induction l with
  | nil =>
    simp only [List.nil_append, slook, List.find?]
    by_cases hp : p = k
    · have : (k == p) = true := beq_iff_eq.mpr hp.symm
      simp [this, hp]
    · have : (k == p) = false := beq_eq_false_iff_ne.mpr (Ne.symm hp)
      simp [this, hp]
  | cons e tl ih =>
    simp only [List.cons_append]
    rw [slook_cons, slook_cons]
    by_cases h : e.1 = p
    · simp [h]
    · simp [h, ih]

theorem slook_sset {α : Type} (l : SMap α) (k : String) (v : α) (p : String) :
    slook (sset l k v) p = if p = k then some v else slook l p := by
  unfold sset
  split
  · next hex =>
    rw [slook_mapset]
    by_cases hp : p = k
    · subst hp
      rcases Option.isSome_iff_exists.mp hex with ⟨w, hw⟩
      simp [hw]
    · simp [hp]
  · next hex =>
    rw [slook_append_single]
    by_cases hp : p = k
    · subst hp
      have hnone : slook l p = none := by
        cases hq : slook l p
        · rfl
        · rw [hq] at hex; simp at hex
      simp [hnone]
    · simp only [hp, if_false]
      cases hq : slook l p <;> simp

theorem slook_ssetIfAbsent {α : Type} (l : SMap α) (k : String) (v : α) (p : String) :
    slook (ssetIfAbsent l k v) p =
      if (slook l k).isSome then slook l p
      else if p = k then some v else slook l p := by
  unfold ssetIfAbsent
  split
  · next hex => simp [hex]
  · next hex =>
    have hex2 : (slook l k).isSome = false := by
      cases hq : slook l k
      · rfl
      · rw [hq] at hex; simp at hex
    rw [slook_append_single]
    by_cases hp : p = k
    · subst hp
      have hnone : slook l p = none := by
        cases hq : slook l p
        · rfl
        · rw [hq] at hex2; simp at hex2
      simp [hnone]
    · simp only [hp, if_false]
      cases hq : slook l p <;> simp

theorem skeys_map_fst {α β : Type} (f : String → α → β) (l : SMap α) :
    skeys (l.map (fun e => (e.1, f e.1 e.2))) = skeys l := by
  induction l with
  | nil => rfl
  | cons e tl ih =>
    simp only [List.map_cons, skeys] at ih ⊢
    rw [ih]

/-! ### Concrete routers used by the claim instances -/

/-- Registration helper for concrete route tables.  On a fresh router
registration never throws; the fallback branch is unreachable for the
examples below. -/
def addE {T : Type} (s : RERouter T) (m p : String) (h : T) : RERouter T :=
  match REadd s m p h with
  | .ok s2 => s2
  | .error _ => s

/-- The ambiguous route set from the repository's `reg-exp.test.ts`. -/
def ambRouter : RERouter String :=
  addE (addE (REinit String) "GET" "/:user/entries" "get user entries")
    "GET" "/entry/:name" "get entry"

/-- The same two routes registered through the smart matcher. -/
def smartAmb : SmartState String :=
  match Smartadd (SmartInit String) "GET" "/:user/entries" "get user entries" with
  | .ok s =>
    match Smartadd s "GET" "/entry/:name" "get entry" with
    | .ok s2 => s2
    | .error _ => s
  | .error _ => SmartInit String

/-- Wildcard middleware registered before the parameterized route. -/
def wildRouter : RERouter String :=
  addE (addE (REinit String) "GET" "/api/*" "w") "GET" "/api/users/:id" "h"

/-- A single optional-parameter registration. -/
def optRouter : RERouter String :=
  addE (REinit String) "GET" "/users/:id?" "h"

/-- A single parameterized route (`/posts/:id` for GET). -/
def postsRouter : RERouter String :=
  addE (REinit String) "GET" "/posts/:id" "get post"

/-- A smart router with one GET route, used for the dispatch claims. -/
def smartTest : SmartState String :=
  match Smartadd (SmartInit String) "GET" "/test" "hT" with
  | .ok s => s
  | .error _ => SmartInit String

/-! ### C1 -/

/-- C1: with `/:user/entries` and `/entry/:name` both registered for GET,
the RegExp matcher's `match('GET', '/entry/entries')` triggers the lazy
build, which raises `UnsupportedPathError` carrying the offending path
(`/:user/entries`, the pattern whose insertion collides with the structural
slot already holding the static segment `entry`). -/
theorem regExpRouter_ambiguous_raises_unsupportedPath :
    REmatch ambRouter "GET" "/entry/entries" =
      .error (.unsupportedPath "/:user/entries") := by
  rfl

/-! ### C5 -/

/-- C5: `add()` expands `/users/:id?` at registration time into the two
sibling routes `/users` and `/users/:id` sharing the handler, with parameter
counts `0` and `1`; `/users` then matches with no `id` parameter and
`/users/5` matches with `id` resolved to the string `"5"`. -/
theorem optional_parameter_expansion :
    checkOptionalParameter "/users/:id?" = some ["/users", "/users/:id"] ∧
    optRouter.routes =
      some [("ALL", []), ("GET", [("/users", [("h", 0)]), ("/users/:id", [("h", 1)])])] ∧
    (∃ s2 st, REmatch optRouter "GET" "/users" = .ok (.indexed [("h", [])] st, s2) ∧
      handlersOf (MatchResult.indexed [(("h" : String), ([] : SMap Nat))] st) = ["h"] ∧
      resolvedParamAt (MatchResult.indexed [(("h" : String), ([] : SMap Nat))] st) 0 "id" = none) ∧
    (∃ s2 r, REmatch optRouter "GET" "/users/5" = .ok (r, s2) ∧
      handlersOf r = ["h"] ∧ resolvedParamAt r 0 "id" = some "5") := by
  refine ⟨rfl, rfl, ⟨_, [], rfl, rfl, rfl⟩, ⟨_, _, rfl, rfl, rfl⟩⟩

/-! ### State-machine lemmas for the matchers -/

/-- A successful `match` leaves the router in a state that answers the same
query with the same result and without further state change (the matcher map
is memoized by the first call). -/
theorem REmatch_stable {T : Type} :
    ∀ (s : RERouter T) (m p : String) (r : MatchResult T) (s2 : RERouter T),
      REmatch s m p = .ok (r, s2) → REmatch s2 m p = .ok (r, s2) := by
  rintro ⟨smw, srt, sms⟩ m p r s2 h
  cases sms with
  | some ms =>
    simp only [REmatch, Except.ok.injEq, Prod.mk.injEq] at h
    obtain ⟨hr, hs⟩ := h
    subst hs
    simp only [REmatch, hr]
  | none =>
    cases smw with
    | none => simp [REmatch] at h
    | some mw =>
      cases srt with
      | none => simp [REmatch] at h
      | some rt =>
        cases hb : REbuildAll mw rt with
        | error e =>
          simp only [REmatch, hb] at h
          exact Except.noConfusion h
        | ok ms =>
          simp only [REmatch, hb, Except.ok.injEq, Prod.mk.injEq] at h
          obtain ⟨hr, hs⟩ := h
          subst hs
          simp only [REmatch, hr]

/-- Every successful `Smartmatch` leaves the smart router committed. -/
theorem smartMatch_ok_committed {T : Type} :
    ∀ (s : SmartState T) (m p : String) (r : MatchResult T) (s2 : SmartState T),
      Smartmatch s m p = .ok (r, s2) → ∃ st, s2.committed = some st := by
  rintro ⟨sre, str, sc⟩ m p r s2 h
  cases sc with
  | some st =>
    cases st with
    | trie =>
      simp only [Smartmatch, Except.ok.injEq, Prod.mk.injEq] at h
      exact ⟨.trie, by rw [← h.2]⟩
    | regExp =>
      cases hre : REmatch sre m p with
      | error e =>
        simp only [Smartmatch, hre] at h
        exact Except.noConfusion h
      | ok pr =>
        simp only [Smartmatch, hre, Except.ok.injEq, Prod.mk.injEq] at h
        exact ⟨.regExp, by rw [← h.2]⟩
  | none =>
    cases hre : REmatch sre m p with
    | ok pr =>
      simp only [Smartmatch, hre, Except.ok.injEq, Prod.mk.injEq] at h
      exact ⟨.regExp, by rw [← h.2]⟩
    | error e =>
      cases e with
      | unsupportedPath q =>
        simp only [Smartmatch, hre, Except.ok.injEq, Prod.mk.injEq] at h
        exact ⟨.trie, by rw [← h.2]⟩
      | matcherAlreadyBuilt =>
        simp only [Smartmatch, hre] at h
        exact Except.noConfusion h

/-! ### C7 -/

/-- C7: matching is idempotent — a `match()` call that returns a result
leaves the router in a committed state from which the identical call returns
the identical result with no further state change. -/
theorem smartMatch_idempotent {T : Type} :
    ∀ (s : SmartState T) (m p : String) (r : MatchResult T) (s2 : SmartState T),
      Smartmatch s m p = .ok (r, s2) → Smartmatch s2 m p = .ok (r, s2) := by
  rintro ⟨sre, str, sc⟩ m p r s2 h
  cases sc with
  | some st =>
    cases st with
    | trie =>
      simp only [Smartmatch, Except.ok.injEq, Prod.mk.injEq] at h
      obtain ⟨hr, hs⟩ := h
      subst hs
      simp only [Smartmatch, hr]
    | regExp =>
      cases hre : REmatch sre m p with
      | error e =>
        simp only [Smartmatch, hre] at h
        exact Except.noConfusion h
      | ok pr =>
        simp only [Smartmatch, hre, Except.ok.injEq, Prod.mk.injEq] at h
        obtain ⟨hr, hs⟩ := h
        subst hs
        simp only [Smartmatch, REmatch_stable sre m p pr.1 pr.2 (by rw [hre]), hr]
  | none =>
    cases hre : REmatch sre m p with
    | ok pr =>
      simp only [Smartmatch, hre, Except.ok.injEq, Prod.mk.injEq] at h
      obtain ⟨hr, hs⟩ := h
      subst hs
      simp only [Smartmatch, REmatch_stable sre m p pr.1 pr.2 (by rw [hre]), hr]
    | error e =>
      cases e with
      | unsupportedPath q =>
        simp only [Smartmatch, hre, Except.ok.injEq, Prod.mk.injEq] at h
        obtain ⟨hr, hs⟩ := h
        subst hs
        simp only [Smartmatch, hr]
      | matcherAlreadyBuilt =>
        simp only [Smartmatch, hre] at h
        exact Except.noConfusion h

/-- The state and result of the first match on `smartTest`. -/
def smartTestAfter : SmartState String :=
  match Smartmatch smartTest "GET" "/test" with
  | .ok (_, s) => s
  | .error _ => smartTest

def smartTestRes : MatchResult String :=
  match Smartmatch smartTest "GET" "/test" with
  | .ok (r, _) => r
  | .error _ => .indexed [] []

/-- C7 witness: the concrete one-route smart router, matched twice. -/
theorem smartMatch_idempotent_witness :
    Smartmatch smartTestAfter "GET" "/test" = .ok (smartTestRes, smartTestAfter) :=
  smartMatch_idempotent smartTest "GET" "/test" smartTestRes smartTestAfter rfl

/-! ### C10 -/

/-- C10: `Router.dispatch` matches a `HEAD` request using method `GET` — the
outcome of dispatching `HEAD` is identical to dispatching `GET` for every
router state and path (no separate `HEAD` table exists), and concretely a
route registered only for GET serves a `HEAD` request to its path. -/
theorem dispatch_head_uses_get :
    (∀ (T : Type) (s : SmartState T) (p : String),
      dispatch s "HEAD" p = dispatch s "GET" p) ∧
    (∃ s2, dispatch smartTest "HEAD" "/test" = (.handled ["hT"], s2) ∧
      dispatch smartTest "GET" "/test" = (.handled ["hT"], s2)) := by
  refine ⟨fun T s p => rfl, ⟨_, rfl, rfl⟩⟩

/-! ### C8 -/

/-- C8: once a matcher has built its matchers and begun serving (the
pre-build maps released), `add()` raises the explicit matcher-already-built
error: directly for `RegExpRouter.add` when either map is released, matching
from an unbuilt state releases both maps, and `add` after any successful
smart match raises the same error. -/
theorem add_after_build_raises :
    (∀ (T : Type) (s : RERouter T) (m p : String) (h : T),
      s.middleware = none ∨ s.routes = none →
      REadd s m p h = .error .matcherAlreadyBuilt) ∧
    (∀ (T : Type) (s : RERouter T) (m p : String) (r : MatchResult T) (s2 : RERouter T),
      s.matchers = none → REmatch s m p = .ok (r, s2) →
      s2.middleware = none ∧ s2.routes = none) ∧
    (∀ (T : Type) (s s2 : SmartState T) (m p m2 p2 : String) (r : MatchResult T) (h2 : T),
      Smartmatch s m p = .ok (r, s2) →
      Smartadd s2 m2 p2 h2 = .error .matcherAlreadyBuilt) := by
  refine ⟨?_, ?_, ?_⟩
  · intro T s m p h hrel
    rcases hrel with hmw | hrt
    · cases hrt : s.routes <;> simp [REadd, hmw, hrt]
    · cases hmw : s.middleware <;> simp [REadd, hmw, hrt]
  · rintro T ⟨smw, srt, sms⟩ m p r s2 hms h
    cases sms with
    | some ms => exact Option.noConfusion hms
    | none =>
      cases smw with
      | none => simp [REmatch] at h
      | some mw =>
        cases srt with
        | none => simp [REmatch] at h
        | some rt =>
          cases hb : REbuildAll mw rt with
          | error e =>
            simp only [REmatch, hb] at h
            exact Except.noConfusion h
          | ok ms =>
            simp only [REmatch, hb, Except.ok.injEq, Prod.mk.injEq] at h
            rw [← h.2]
            exact ⟨rfl, rfl⟩
  · intro T s s2 m p m2 p2 r h2 h
    obtain ⟨st, hst⟩ := smartMatch_ok_committed s m p r s2 h
    unfold Smartadd
    rw [hst]

/-- The released state after the first match on `postsRouter`. -/
def postsBuilt : RERouter String :=
  match REmatch postsRouter "GET" "/posts/1" with
  | .ok (_, s2) => s2
  | .error _ => postsRouter

/-- C8 witness: adding to the concretely built `postsRouter` raises the
matcher-already-built error. -/
theorem add_after_build_raises_witness :
    REadd postsBuilt "GET" "/x" "late" = .error .matcherAlreadyBuilt :=
  add_after_build_raises.1 String postsBuilt "GET" "/x" "late" (Or.inl rfl)

/-! ### C2 -/

/-- C2: on the first `match()` the smart matcher attempts the RegExp build
and match; if that raises `UnsupportedPathError` it commits permanently to
the trie matcher and returns the (never-throwing) trie result for this and
every subsequent call, and otherwise it commits permanently to the RegExp
matcher. -/
theorem smartRouter_fallback_commits {T : Type} (s : SmartState T) (method path : String)
    (h0 : s.committed = none) :
    (∀ q, REmatch s.re method path = .error (.unsupportedPath q) →
      Smartmatch s method path =
        .ok (Tmatch s.tr method path, ⟨s.re, s.tr, some .trie⟩) ∧
      ∀ m2 p2, Smartmatch ⟨s.re, s.tr, some .trie⟩ m2 p2 =
        .ok (Tmatch s.tr m2 p2, ⟨s.re, s.tr, some .trie⟩)) ∧
    (∀ r re2, REmatch s.re method path = .ok (r, re2) →
      Smartmatch s method path = .ok (r, ⟨re2, s.tr, some .regExp⟩)) := by
  constructor
  · intro q hq
    constructor
    · unfold Smartmatch
      rw [h0, hq]
    · intro m2 p2
      rfl
  · intro r re2 hok
    unfold Smartmatch
    rw [h0, hok]

/-- C2 witness: the ambiguous route pair through the smart matcher — the
RegExp build of these routes throws, the smart matcher commits to the trie
and returns the defined two-handler result. -/
theorem smartRouter_fallback_commits_witness :
    Smartmatch smartAmb "GET" "/entry/entries" =
      .ok (Tmatch smartAmb.tr "GET" "/entry/entries",
           ⟨smartAmb.re, smartAmb.tr, some .trie⟩) ∧
    handlersOf (Tmatch smartAmb.tr "GET" "/entry/entries") =
      ["get user entries", "get entry"] :=
  ⟨((smartRouter_fallback_commits smartAmb "GET" "/entry/entries" rfl).1
      "/:user/entries" rfl).1, rfl⟩

/-! ### C6 -/

/-- C6: a (method, path) pair that matches nothing produces an empty match
result rather than an exception, and `dispatch` then falls through to
`next()`: shown generally (an empty result makes `dispatch` call `next`) and
concretely for an unmatched path, for a method with no routes (served by the
`nullMatcher`), and end-to-end through `dispatch`. -/
theorem no_match_is_empty_not_error :
    (∀ (T : Type) (s : SmartState T) (m p : String) (r : MatchResult T) (s2 : SmartState T),
      m ≠ "HEAD" → Smartmatch s m p = .ok (r, s2) → handlersOf r = [] →
      dispatch s m p = (.nextNoMatch, s2)) ∧
    (∃ s2, REmatch postsRouter "GET" "/nope" = .ok (.indexed [] [], s2)) ∧
    (∃ s2, REmatch postsRouter "DELETE" "/posts/1" = .ok (.indexed [] [], s2)) ∧
    (∃ s2, dispatch smartTest "GET" "/zzz" = (.nextNoMatch, s2)) := by
  refine ⟨?_, ⟨_, rfl⟩, ⟨_, rfl⟩, ⟨_, rfl⟩⟩
  intro T s m p r s2 hm hmatch hempty
  have hb : (m == "HEAD") = false := beq_eq_false_iff_ne.mpr hm
  simp only [dispatch, hb, Bool.false_eq_true, if_false, hmatch, hempty,
    List.isEmpty_nil, if_true]

/-! ### C3 -/

/-- Lookup through both map levels: method bucket, then path key. -/
def slook2 {T : Type} (m : MMap T) (mk p : String) : Option (List (T × Nat)) :=
  (slook m mk).bind (fun b => slook b p)

theorem slook_mapVals {α : Type} (f : String → α → α) (l : SMap α) (k : String) :
    slook (mapVals f l) k = (slook l k).map (f k) :=
  slook_map f l k

theorem slook2_pushWildcard {T : Type} (m : MMap T) (method path : String) (h : T)
    (pc : Nat) (mk p : String) :
    slook2 (pushWildcard method path h pc m) mk p =
      (slook2 m mk p).map (fun l =>
        if (method == "ALL" || mk == method) && wildcardTest path p
        then l ++ [(h, pc)] else l) := by
  unfold slook2 pushWildcard
  rw [slook_mapVals]
  cases hb : slook m mk with
  | none => rfl
  | some b =>
    simp only [Option.map_some', Option.some_bind]
    by_cases hc : (method == "ALL" || mk == method) = true
    · simp only [hc, if_true, Bool.true_and]
      exact slook_mapVals (fun p l => if wildcardTest path p then l ++ [(h, pc)] else l) b p
    · have hc2 : (method == "ALL" || mk == method) = false := by
        cases hcc : (method == "ALL" || mk == method)
        · rfl
        · exact absurd hcc hc
      simp only [hc2, Bool.false_eq_true, if_false, Bool.false_and]
      cases hp : slook b p with
      | none => rfl
      | some l => rfl

/-- C3: registering the wildcard middleware `/api/*` before `/api/users/:id`
for the same method makes a request for `/api/users/5` return the wildcard's
handler ahead of the route's handler; and in general the wildcard branch of
`add` rewrites the route map by appending the handler exactly to the path
keys already present that its pattern matches (an absent key stays absent),
so registration order determines which concrete paths receive the
middleware. -/
theorem wildcard_order_and_addTime_expansion :
    (∃ s2 r, REmatch wildRouter "GET" "/api/users/5" = .ok (r, s2) ∧
      handlersOf r = ["w", "h"] ∧ resolvedParamAt r 1 "id" = some "5") ∧
    (∀ (T : Type) (mw rt : MMap T) (sms : Option (SMap (Option (RMatcher T))))
        (method path : String) (h : T),
      (slook mw method).isSome = true → strEndsWith path "*" = true →
      (path == "/*") = false →
      ∃ mw2, REadd ⟨some mw, some rt, sms⟩ method path h =
        .ok ⟨some mw2, some (pushWildcard method path h (countParamSeg path) rt), sms⟩) ∧
    (∀ (T : Type) (rt : MMap T) (method path : String) (h : T) (pc : Nat) (mk p : String),
      slook2 (pushWildcard method path h pc rt) mk p =
        (slook2 rt mk p).map (fun l =>
          if (method == "ALL" || mk == method) && wildcardTest path p
          then l ++ [(h, pc)] else l)) := by
  refine ⟨⟨_, _, rfl, rfl, rfl⟩, ?_, ?_⟩
  · intro T mw rt sms method path h hsome hend hne
    refine ⟨pushWildcard method path h (countParamSeg path)
      (if method == "ALL" then
        (skeys mw).foldl (fun acc mk => ensureWildcardAt acc mk path) mw
      else ensureWildcardAt mw method path), ?_⟩
    simp only [REadd, hsome, if_true, hne, Bool.false_eq_true, if_false, hend]
    rfl
  · intro T rt method path h pc mk p
    exact slook2_pushWildcard rt method path h pc mk p

/-- The one-route table used to witness the wildcard-branch equations. -/
def wApiBase : RERouter String :=
  addE (REinit String) "GET" "/api/users/:id" "h0"

def wApiMw : MMap String := (wApiBase.middleware).getD []

def wApiRt : MMap String := (wApiBase.routes).getD []

/-- C3 witness: adding `/api/*` for GET to the table that already holds
`/api/users/:id` appends the wildcard handler to that existing key. -/
theorem wildcard_order_and_addTime_expansion_witness :
    (∃ mw2, REadd ⟨some wApiMw, some wApiRt, none⟩ "GET" "/api/*" "w" =
      .ok ⟨some mw2, some (pushWildcard "GET" "/api/*" "w" 0 wApiRt), none⟩) ∧
    slook2 (pushWildcard "GET" "/api/*" "w" 0 wApiRt) "GET" "/api/users/:id" =
      some [("h0", 1), ("w", 0)] := by
  constructor
  · exact wildcard_order_and_addTime_expansion.2.1 String wApiMw wApiRt none
      "GET" "/api/*" "w" rfl rfl rfl
  · rw [wildcard_order_and_addTime_expansion.2.2 String wApiRt "GET" "/api/*" "w" 0
      "GET" "/api/users/:id"]
    rfl

/-- The state after dispatching the unmatched path on `smartTest`. -/
def smartZAfter : SmartState String :=
  match Smartmatch smartTest "GET" "/zzz" with
  | .ok (_, s) => s
  | .error _ => smartTest

/-- C6 witness: the general fall-through applied to the concrete router and
unmatched path. -/
theorem no_match_is_empty_not_error_witness :
    dispatch smartTest "GET" "/zzz" = (.nextNoMatch, smartZAfter) :=
  no_match_is_empty_not_error.1 String smartTest "GET" "/zzz"
    (.indexed [] []) smartZAfter (by decide) rfl rfl

/-! ### C4: order produced by the build sort -/

/-- The order the build sort establishes: a static route is never followed by
a dynamic one, and dynamic routes appear in non-decreasing pattern length. -/
def routeOrd {α : Type} (a b : Bool × String × α) : Prop :=
  (a.1 = true → b.1 = true) ∧
  (a.1 = false → b.1 = false → a.2.1.length ≤ b.2.1.length)

theorem routeLE_true_ord {α : Type} {a b : Bool × String × α}
    (h : routeLE a b = true) : routeOrd a b := by
  cases ha : a.1 <;> cases hb : b.1 <;>
    simp_all [routeLE, routeOrd]

theorem routeLE_false_ord {α : Type} {a b : Bool × String × α}
    (h : routeLE a b = false) : routeOrd b a := by
  cases ha : a.1 <;> cases hb : b.1 <;>
    simp_all [routeLE, routeOrd] <;> omega

theorem routeOrd_of_false_trans {α : Type} {x y z : Bool × String × α}
    (h : routeLE y x = false) (hyz : routeOrd y z) : routeOrd x z := by
  obtain ⟨h1, h2⟩ := hyz
  cases hy : y.1 <;> cases hx : x.1 <;> cases hz : z.1 <;>
    simp_all [routeLE, routeOrd] <;> omega

theorem mem_insertSorted {α : Type} (le : α → α → Bool) (x a : α) (l : List α) :
    a ∈ insertSorted le x l ↔ a = x ∨ a ∈ l := by
  induction l with
  | nil => simp [insertSorted]
  | cons y ys ih =>
    unfold insertSorted
    split
    · rw [List.mem_cons, ih, List.mem_cons]
      tauto
    · simp only [List.mem_cons]

theorem pairwise_insertSorted {α : Type} (x : Bool × String × α)
    (l : List (Bool × String × α)) (h : l.Pairwise routeOrd) :
    (insertSorted routeLE x l).Pairwise routeOrd := by
  induction l with
  | nil => simp [insertSorted]
  | cons y ys ih =>
    rcases List.pairwise_cons.mp h with ⟨hy, hys⟩
    unfold insertSorted
    split
    · next hle =>
      refine List.pairwise_cons.mpr ⟨?_, ih hys⟩
      intro z hz
      rcases (mem_insertSorted routeLE x z ys).mp hz with rfl | hzys
      · exact routeLE_true_ord hle
      · exact hy z hzys
    · next hle =>
      have hfalse : routeLE y x = false := by
        cases hh : routeLE y x
        · rfl
        · exact absurd hh hle
      refine List.pairwise_cons.mpr ⟨?_, h⟩
      intro z hz
      rcases List.mem_cons.mp hz with rfl | hzys
      · exact routeLE_false_ord hfalse
      · exact routeOrd_of_false_trans hfalse (hy z hzys)

theorem pairwise_sortAux {α : Type} :
    ∀ (l acc : List (Bool × String × α)), acc.Pairwise routeOrd →
      (l.foldl (fun acc x => insertSorted routeLE x acc) acc).Pairwise routeOrd := by
  intro l
  induction l with
  | nil => intro acc h; exact h
  | cons a l ih =>
    intro acc h
    exact ih _ (pairwise_insertSorted a acc h)

/-- Membership class used to state stability: dynamic routes of a given
pattern length. -/
def dynLen {α : Type} (n : Nat) (r : Bool × String × α) : Bool :=
  !r.1 && r.2.1.length == n

theorem filter_insertSorted {α : Type} (n : Nat) (x : Bool × String × α)
    (l : List (Bool × String × α)) (hl : l.Pairwise routeOrd) :
    (insertSorted routeLE x l).filter (dynLen n) =
      l.filter (dynLen n) ++ if dynLen n x then [x] else [] := by
  induction l with
  | nil => cases hdx : dynLen n x <;> simp [insertSorted, List.filter, hdx]
  | cons y ys ih =>
    rcases List.pairwise_cons.mp hl with ⟨hy, hys⟩
    unfold insertSorted
    split
    · next hle =>
      rw [List.filter_cons, List.filter_cons, ih hys]
      cases hdy : dynLen n y <;> simp [hdy]
    · next hle =>
      have hfalse : routeLE y x = false := by
        cases hh : routeLE y x
        · rfl
        · exact absurd hh hle
      cases hdx : dynLen n x
      · simp [List.filter_cons, hdx]
      · have hxdyn : x.1 = false ∧ x.2.1.length = n := by
          have := hdx
          simp [dynLen] at this
          exact this
        have hnone : ∀ z ∈ y :: ys, dynLen n z = false := by
          intro z hz
          rcases List.mem_cons.mp hz with rfl | hzys
          · cases hzy : z.1
            · have hlen : n < z.2.1.length := by
                have h1 := hfalse
                simp [routeLE, hzy, hxdyn.1] at h1
                omega
              simp [dynLen, hzy]
              omega
            · simp [dynLen, hzy]
          · have hord := hy z hzys
            cases hzy : y.1
            · have hlen : n < y.2.1.length := by
                have h1 := hfalse
                simp [routeLE, hzy, hxdyn.1] at h1
                omega
              cases hz1 : z.1
              · have := hord.2 hzy hz1
                simp [dynLen, hz1]
                omega
              · simp [dynLen, hz1]
            · have := hord.1 hzy
              simp [dynLen, this]
        have h1 : List.filter (dynLen n) (y :: ys) = [] := by
          rw [List.filter_eq_nil_iff]
          intro a ha
          simp [hnone a ha]
        simp [List.filter_cons, hdx, h1]

theorem filter_sortAux {α : Type} (n : Nat) :
    ∀ (l acc : List (Bool × String × α)), acc.Pairwise routeOrd →
      (l.foldl (fun acc x => insertSorted routeLE x acc) acc).filter (dynLen n) =
        acc.filter (dynLen n) ++ l.filter (dynLen n) := by
  intro l
  induction l with
  | nil => intro acc h; simp
  | cons a l ih =>
    intro acc h
    simp only [List.foldl_cons]
    rw [ih _ (pairwise_insertSorted a acc h), filter_insertSorted n a acc h,
      List.filter_cons]
    cases hda : dynLen n a <;> simp [hda]

/-- C4 counterexample: the build sort places the fully static route
`/reg-exp/router` after the dynamic route `/reg-exp/:id`, not before it —
static routes do not outrank dynamic routes inside the sorted order. -/
theorem build_sort_static_not_first :
    stableSortBy routeLE
        ([("/reg-exp/router", [(("foo" : String), 0)]),
          ("/reg-exp/:id", [("bar", 1)])].map
          (fun r => (isStaticPath r.1, r.1, r.2))) =
      [(false, "/reg-exp/:id", [("bar", 1)]),
       (true, "/reg-exp/router", [("foo", 0)])] ∧
    stableSortBy routeLE
        ([("/reg-exp/router", [(("foo" : String), 0)]),
          ("/reg-exp/:id", [("bar", 1)])].map
          (fun r => (isStaticPath r.1, r.1, r.2))) ≠
      [(true, "/reg-exp/router", [("foo", 0)]),
       (false, "/reg-exp/:id", [("bar", 1)])] := by
  exact ⟨rfl, by decide⟩

/-- C4 (amended): the build step's stable sort places every fully static
route after every dynamic route (a static route still outranks a same-shape
dynamic route at match time, through the static lookup table consulted
before the composite regular expression); among dynamic routes the shorter
pattern comes first and, for equal length, the earlier-registered order is
preserved. -/
theorem build_sort_properties :
    (∀ (α : Type) (l : List (Bool × String × α)),
      (stableSortBy routeLE l).Pairwise routeOrd) ∧
    (∀ (α : Type) (l : List (Bool × String × α)) (n : Nat),
      (stableSortBy routeLE l).filter (dynLen n) = l.filter (dynLen n)) ∧
    (∀ (T : Type) (m : RMatcher T) (p : String) (v : List (T × SMap Nat)),
      slook m.staticMap p = some v → matcherMatch m p = .indexed v []) := by
  refine ⟨?_, ?_, ?_⟩
  · intro α l
    exact pairwise_sortAux l [] List.Pairwise.nil
  · intro α l n
    have := filter_sortAux n l [] List.Pairwise.nil
    simpa [stableSortBy] using this
  · intro T m p v hv
    simp only [matcherMatch, hv]

/-- A matcher holding one static route, for the C4 witness. -/
def staticDemoMatcher : RMatcher String :=
  match buildMatcherFromPreprocessedRoutes [("/users", [(("h" : String), 0)])] with
  | .ok m => m
  | .error _ => nullMatcher String

/-- C4 witness: the static lookup table answers before the regular
expression on the concrete one-static-route matcher. -/
theorem build_sort_properties_witness :
    matcherMatch staticDemoMatcher "/users" = .indexed [("h", [])] [] :=
  build_sort_properties.2.2 String staticDemoMatcher "/users" [("h", [])] rfl

/-! ### C9: growth and key-synchrony of the pre-build maps -/

/-- Bucket growth: every path key keeps its handler list as a sublist. -/
def bucketsLE {T : Type} (a b : SMap (List (T × Nat))) : Prop :=
  ∀ p l, slook a p = some l → ∃ l2, slook b p = some l2 ∧ l.Sublist l2

/-- Map growth: every method bucket persists and only grows. -/
def mmapLE {T : Type} (a b : MMap T) : Prop :=
  ∀ mk bk, slook a mk = some bk → ∃ bk2, slook b mk = some bk2 ∧ bucketsLE bk bk2

theorem bucketsLE_refl {T : Type} (b : SMap (List (T × Nat))) : bucketsLE b b :=
  fun _ l h => ⟨l, h, List.Sublist.refl l⟩

theorem bucketsLE_trans {T : Type} {a b c : SMap (List (T × Nat))}
    (h1 : bucketsLE a b) (h2 : bucketsLE b c) : bucketsLE a c := by
  intro p l hl
  obtain ⟨l2, hl2, hs⟩ := h1 p l hl
  obtain ⟨l3, hl3, hs2⟩ := h2 p l2 hl2
  exact ⟨l3, hl3, hs.trans hs2⟩

theorem mmapLE_refl {T : Type} (m : MMap T) : mmapLE m m :=
  fun _ bk h => ⟨bk, h, bucketsLE_refl bk⟩

theorem mmapLE_trans {T : Type} {a b c : MMap T}
    (h1 : mmapLE a b) (h2 : mmapLE b c) : mmapLE a c := by
  intro mk bk hbk
  obtain ⟨bk2, hbk2, hs⟩ := h1 mk bk hbk
  obtain ⟨bk3, hbk3, hs2⟩ := h2 mk bk2 hbk2
  exact ⟨bk3, hbk3, bucketsLE_trans hs hs2⟩

theorem bucketsLE_ssetIfAbsent {T : Type} (b : SMap (List (T × Nat))) (k : String)
    (v : List (T × Nat)) : bucketsLE b (ssetIfAbsent b k v) := by
  intro p l hl
  rw [slook_ssetIfAbsent]
  by_cases hk : (slook b k).isSome = true
  · exact ⟨l, by simp [hk, hl], List.Sublist.refl l⟩
  · by_cases hp : p = k
    · subst hp
      rw [hl] at hk
      simp at hk
    · refine ⟨l, ?_, List.Sublist.refl l⟩
      have hk2 : (slook b k).isSome = false := by
        cases hq : (slook b k).isSome
        · rfl
        · exact absurd hq hk
      simp [hk2, hp, hl]

theorem bucketsLE_mapVals {T : Type} (f : String → List (T × Nat) → List (T × Nat))
    (b : SMap (List (T × Nat)))
    (hf : ∀ (p : String) (l : List (T × Nat)), l.Sublist (f p l)) :
    bucketsLE b (mapVals f b) := by
  intro p l hl
  rw [slook_mapVals, hl]
  exact ⟨f p l, rfl, hf p l⟩

theorem bucketsLE_sset_push {T : Type} (b : SMap (List (T × Nat))) (q : String)
    (init : List (T × Nat)) (x : T × Nat) :
    bucketsLE b (sset b q (((slook b q).getD init) ++ [x])) := by
  intro p l hl
  rw [slook_sset]
  by_cases hp : p = q
  · subst hp
    rw [hl]
    exact ⟨l ++ [x], by simp, List.sublist_append_left l [x]⟩
  · exact ⟨l, by simp [hp, hl], List.Sublist.refl l⟩

theorem mmapLE_mapVals {T : Type} (f : String → SMap (List (T × Nat)) → SMap (List (T × Nat)))
    (m : MMap T) (hf : ∀ k bk, bucketsLE bk (f k bk)) : mmapLE m (mapVals f m) := by
  intro mk bk hbk
  rw [slook_mapVals, hbk]
  exact ⟨f mk bk, rfl, hf mk bk⟩

theorem mmapLE_sset_fresh {T : Type} (m : MMap T) (k : String) (v : SMap (List (T × Nat)))
    (hk : slook m k = none) : mmapLE m (sset m k v) := by
  intro mk bk hbk
  rw [slook_sset]
  by_cases hmk : mk = k
  · subst hmk
    rw [hbk] at hk
    exact Option.noConfusion hk
  · exact ⟨bk, by simp [hmk, hbk], bucketsLE_refl bk⟩

theorem mmapLE_pushWildcard {T : Type} (m : MMap T) (method path : String) (h : T)
    (pc : Nat) : mmapLE m (pushWildcard method path h pc m) := by
  unfold pushWildcard
  refine mmapLE_mapVals _ m (fun k bk => ?_)
  by_cases hc : (method == "ALL" || k == method) = true
  · simp only [hc, if_true]
    refine bucketsLE_mapVals _ bk (fun p l => ?_)
    by_cases ht : wildcardTest path p = true
    · simp only [ht, if_true]
      exact List.sublist_append_left l [(h, pc)]
    · have ht2 : wildcardTest path p = false := by
        cases hq : wildcardTest path p
        · rfl
        · exact absurd hq ht
      simp only [ht2, Bool.false_eq_true, if_false]
      exact List.Sublist.refl l
  · have hc2 : (method == "ALL" || k == method) = false := by
      cases hq : (method == "ALL" || k == method)
      · rfl
      · exact absurd hq hc
    simp only [hc2, Bool.false_eq_true, if_false]
    exact bucketsLE_refl bk

theorem mmapLE_ensureWildcardAt {T : Type} (mw : MMap T) (mk path : String) :
    mmapLE mw (ensureWildcardAt mw mk path) := by
  unfold ensureWildcardAt
  refine mmapLE_mapVals _ mw (fun k bk => ?_)
  by_cases hc : (k == mk) = true
  · simp only [hc, if_true]
    exact bucketsLE_ssetIfAbsent bk path (mwInit mw k path)
  · have hc2 : (k == mk) = false := by
      cases hq : (k == mk)
      · rfl
      · exact absurd hq hc
    simp only [hc2, Bool.false_eq_true, if_false]
    exact bucketsLE_refl bk

theorem mmapLE_ensureFold {T : Type} (path : String) :
    ∀ (keys : List String) (acc : MMap T),
      mmapLE acc (keys.foldl (fun acc mk => ensureWildcardAt acc mk path) acc) := by
  intro keys
  induction keys with
  | nil => intro acc; exact mmapLE_refl acc
  | cons k ks ih =>
    intro acc
    simp only [List.foldl_cons]
    exact mmapLE_trans (mmapLE_ensureWildcardAt acc k path) (ih _)

theorem mmapLE_addRoutePaths {T : Type} (method : String) (h : T) (pc : Nat)
    (paths : List String) (mw : MMap T) (rt : MMap T) :
    mmapLE rt (addRoutePaths method h pc paths mw rt) := by
  unfold addRoutePaths
  generalize paths.enum = ips
  induction ips generalizing rt with
  | nil => exact mmapLE_refl rt
  | cons ip ips ih =>
    simp only [List.foldl_cons]
    refine mmapLE_trans ?_ (ih _)
    refine mmapLE_mapVals _ rt (fun k bk => ?_)
    by_cases hc : (method == "ALL" || k == method) = true
    · simp only [hc, if_true]
      exact bucketsLE_sset_push bk ip.2 (mwInit mw k ip.2) _
    · have hc2 : (method == "ALL" || k == method) = false := by
        cases hq : (method == "ALL" || k == method)
        · rfl
        · exact absurd hq hc
      simp only [hc2, Bool.false_eq_true, if_false]
      exact bucketsLE_refl bk

/-- Both maps of a `RegExpRouter` always hold buckets for the same methods
(`add` creates them in pairs). -/
def keySync {T : Type} (mw rt : MMap T) : Prop :=
  ∀ k, (slook mw k).isSome = (slook rt k).isSome

theorem slook_isSome_mapVals {α : Type} (f : String → α → α) (l : SMap α) (k : String) :
    (slook (mapVals f l) k).isSome = (slook l k).isSome := by
  rw [slook_mapVals]
  cases slook l k <;> rfl

theorem slook_isSome_ensureFold {T : Type} (path : String) :
    ∀ (keys : List String) (acc : MMap T) (k : String),
      (slook (keys.foldl (fun acc mk => ensureWildcardAt acc mk path) acc) k).isSome =
        (slook acc k).isSome := by
  intro keys
  induction keys with
  | nil => intro acc k; rfl
  | cons q ks ih =>
    intro acc k
    simp only [List.foldl_cons]
    rw [ih]
    unfold ensureWildcardAt
    exact slook_isSome_mapVals _ acc k

theorem slook_isSome_addRoutePaths {T : Type} (method : String) (h : T) (pc : Nat)
    (paths : List String) (mw : MMap T) :
    ∀ (rt : MMap T) (k : String),
      (slook (addRoutePaths method h pc paths mw rt) k).isSome = (slook rt k).isSome := by
  unfold addRoutePaths
  generalize paths.enum = ips
  induction ips with
  | nil => intro rt k; rfl
  | cons ip ips ih =>
    intro rt k
    simp only [List.foldl_cons]
    rw [ih]
    exact slook_isSome_mapVals _ rt k

theorem slook_isSome_pushWildcard {T : Type} (method path : String) (h : T) (pc : Nat)
    (m : MMap T) (k : String) :
    (slook (pushWildcard method path h pc m) k).isSome = (slook m k).isSome := by
  unfold pushWildcard
  exact slook_isSome_mapVals _ m k

theorem slook_isSome_inheritAll {T : Type} (m : MMap T) (method k : String) :
    (slook (inheritAll m method) k).isSome =
      if k = method then true else (slook m k).isSome := by
  unfold inheritAll
  rw [slook_sset]
  by_cases hk : k = method <;> simp [hk]

/-- The inheritance step taken by `add` only grows a map (it is the identity
when the method bucket exists, and appends a fresh bucket otherwise). -/
theorem mmapLE_inheritStep {T : Type} (m : MMap T) (method : String) :
    mmapLE m (if (slook m method).isSome then m else inheritAll m method) := by
  by_cases hs : (slook m method).isSome = true
  · simp only [hs, if_true]
    exact mmapLE_refl m
  · have hnone : slook m method = none := by
      cases hq : slook m method
      · rfl
      · rw [hq] at hs; simp at hs
    have hs2 : (slook m method).isSome = false := by rw [hnone]; rfl
    simp only [hs2, Bool.false_eq_true, if_false]
    unfold inheritAll
    exact mmapLE_sset_fresh m method _ hnone

/-- Growth facts for the wildcard branch of `add`. -/
theorem REaddWild_growth {T : Type} (mw rt : MMap T)
    (sms : Option (SMap (Option (RMatcher T)))) (method path : String) (h : T)
    (hsync : keySync mw rt) :
    ∃ mw2 rt2, REaddWild mw rt sms method path h = ⟨some mw2, some rt2, sms⟩ ∧
      keySync mw2 rt2 ∧ mmapLE mw mw2 ∧ mmapLE rt rt2 := by
  refine ⟨_, _, rfl, ?_, ?_, mmapLE_pushWildcard rt method path h _⟩
  · intro k
    rw [slook_isSome_pushWildcard, slook_isSome_pushWildcard]
    by_cases hA : (method == "ALL") = true
    · simp only [hA, if_true]
      rw [slook_isSome_ensureFold]
      exact hsync k
    · have hA2 : (method == "ALL") = false := by
        cases hq : (method == "ALL")
        · rfl
        · exact absurd hq hA
      simp only [hA2, Bool.false_eq_true, if_false]
      unfold ensureWildcardAt
      rw [slook_isSome_mapVals]
      exact hsync k
  · refine mmapLE_trans ?_ (mmapLE_pushWildcard _ method path h _)
    by_cases hA : (method == "ALL") = true
    · simp only [hA, if_true]
      exact mmapLE_ensureFold path (skeys mw) mw
    · have hA2 : (method == "ALL") = false := by
        cases hq : (method == "ALL")
        · rfl
        · exact absurd hq hA
      simp only [hA2, Bool.false_eq_true, if_false]
      exact mmapLE_ensureWildcardAt mw method path

/-- Growth facts for the route branch of `add`. -/
theorem REaddRoute_growth {T : Type} (mw rt : MMap T)
    (sms : Option (SMap (Option (RMatcher T)))) (method path : String) (h : T)
    (hsync : keySync mw rt) :
    ∃ mw2 rt2, REaddRoute mw rt sms method path h = ⟨some mw2, some rt2, sms⟩ ∧
      keySync mw2 rt2 ∧ mmapLE mw mw2 ∧ mmapLE rt rt2 := by
  refine ⟨_, _, rfl, ?_, mmapLE_refl mw, mmapLE_addRoutePaths method h _ _ mw rt⟩
  intro k
  rw [slook_isSome_addRoutePaths]
  exact hsync k

/-- Structure of a successful `add` on live maps: the resulting state keeps
the matcher slot, keeps the two maps key-synchronized, and each map only
grows from its (possibly `ALL`-inheriting) starting point. -/
theorem REadd_ok_growth {T : Type} (mw rt : MMap T)
    (sms : Option (SMap (Option (RMatcher T)))) (method path : String) (h : T)
    (s2 : RERouter T) (hsync : keySync mw rt)
    (hadd : REadd ⟨some mw, some rt, sms⟩ method path h = .ok s2) :
    ∃ mw2 rt2, s2 = ⟨some mw2, some rt2, sms⟩ ∧ keySync mw2 rt2 ∧
      mmapLE (if (slook mw method).isSome then mw else inheritAll mw method) mw2 ∧
      mmapLE (if (slook mw method).isSome then rt else inheritAll rt method) rt2 := by
  have hsyncI : keySync
      (if (slook mw method).isSome then mw else inheritAll mw method)
      (if (slook mw method).isSome then rt else inheritAll rt method) := by
    by_cases hs : (slook mw method).isSome = true
    · simpa [hs] using hsync
    · have hs2 : (slook mw method).isSome = false := by
        cases hq : (slook mw method).isSome
        · rfl
        · exact absurd hq hs
      simp only [hs2, Bool.false_eq_true, if_false]
      intro k
      rw [slook_isSome_inheritAll, slook_isSome_inheritAll]
      by_cases hk : k = method <;> simp [hk, hsync k]
  by_cases hw : strEndsWith (if (path == "/*") = true then "*" else path) "*" = true
  · simp only [REadd, hw, if_true, Except.ok.injEq] at hadd
    subst hadd
    exact REaddWild_growth _ _ sms method _ h hsyncI
  · have hw2 : strEndsWith (if (path == "/*") = true then "*" else path) "*" = false := by
      cases hq : strEndsWith (if (path == "/*") = true then "*" else path) "*"
      · rfl
      · exact absurd hq hw
    simp only [REadd, hw2, Bool.false_eq_true, if_false, Except.ok.injEq] at hadd
    subst hadd
    exact REaddRoute_growth _ _ sms method _ h hsyncI

/-- A sequence of further `add` calls, stopping at the first thrown error. -/
def addSeq {T : Type} : RERouter T → List (String × String × T) →
    Except RouterError (RERouter T)
  | s, [] => .ok s
  | s, op :: ops =>
    match REadd s op.1 op.2.1 op.2.2 with
    | .error e => .error e
    | .ok s1 => addSeq s1 ops

theorem addSeq_growth {T : Type} :
    ∀ (ops : List (String × String × T)) (mw rt : MMap T)
      (sms : Option (SMap (Option (RMatcher T)))) (s3 : RERouter T),
      keySync mw rt → addSeq ⟨some mw, some rt, sms⟩ ops = .ok s3 →
      ∃ mw3 rt3, s3 = ⟨some mw3, some rt3, sms⟩ ∧ keySync mw3 rt3 ∧
        mmapLE mw mw3 ∧ mmapLE rt rt3 := by
  intro ops
  induction ops with
  | nil =>
    intro mw rt sms s3 hsync hseq
    simp only [addSeq, Except.ok.injEq] at hseq
    exact ⟨mw, rt, hseq.symm, hsync, mmapLE_refl mw, mmapLE_refl rt⟩
  | cons op ops ih =>
    intro mw rt sms s3 hsync hseq
    cases hre : REadd ⟨some mw, some rt, sms⟩ op.1 op.2.1 op.2.2 with
    | error e =>
      simp only [addSeq, hre] at hseq
      exact Except.noConfusion hseq
    | ok s1 =>
      obtain ⟨mw1, rt1, rfl, hsync1, hm1, hr1⟩ :=
        REadd_ok_growth mw rt sms op.1 op.2.1 op.2.2 s1 hsync hre
      have hseq2 : addSeq (⟨some mw1, some rt1, sms⟩ : RERouter T) ops = .ok s3 := by
        simpa only [addSeq, hre] using hseq
      obtain ⟨mw3, rt3, rfl, hsync3, hm3, hr3⟩ := ih mw1 rt1 sms s3 hsync1 hseq2
      refine ⟨mw3, rt3, rfl, hsync3, ?_, ?_⟩
      · exact mmapLE_trans (mmapLE_trans (mmapLE_inheritStep mw op.1) hm1) hm3
      · refine mmapLE_trans (mmapLE_trans ?_ hr1) hr3
        by_cases hs : (slook mw op.1).isSome = true
        · simp only [hs, if_true]
          exact mmapLE_refl rt
        · have hs2 : (slook mw op.1).isSome = false := by
            cases hq : (slook mw op.1).isSome
            · rfl
            · exact absurd hq hs
          have hnone : slook rt op.1 = none := by
            have := hsync op.1
            rw [hs2] at this
            cases hq : slook rt op.1
            · rfl
            · rw [hq] at this; simp at this
          simp only [hs2, Bool.false_eq_true, if_false]
          unfold inheritAll
          exact mmapLE_sset_fresh rt op.1 _ hnone

/-! ### C9 main theorem -/

/-- C9: when `add()` first sees a method, the new method's middleware and
route buckets are initialized with copies of every handler list registered
under `ALL`, so every handler registered under `ALL` before that first
method-specific registration also applies to the new method — and this
persists through every later `add()` call, which only ever grows the
buckets. -/
theorem all_method_inheritance :
    ∀ (T : Type) (mw rt : MMap T) (sms : Option (SMap (Option (RMatcher T))))
      (method path : String) (h : T) (s2 s3 : RERouter T)
      (ops : List (String × String × T)),
      keySync mw rt → slook mw method = none →
      REadd ⟨some mw, some rt, sms⟩ method path h = .ok s2 →
      addSeq s2 ops = .ok s3 →
      (∀ p l, slook ((slook mw "ALL").getD []) p = some l →
        ∃ mw3 bk l2, s3.middleware = some mw3 ∧ slook mw3 method = some bk ∧
          slook bk p = some l2 ∧ l.Sublist l2) ∧
      (∀ p l, slook ((slook rt "ALL").getD []) p = some l →
        ∃ rt3 bk l2, s3.routes = some rt3 ∧ slook rt3 method = some bk ∧
          slook bk p = some l2 ∧ l.Sublist l2) := by
  intro T mw rt sms method path h s2 s3 ops hsync hfresh hadd hseq
  have hs2 : (slook mw method).isSome = false := by rw [hfresh]; rfl
  obtain ⟨mw2, rt2, rfl, hsync2, hm2, hr2⟩ :=
    REadd_ok_growth mw rt sms method path h s2 hsync hadd
  rw [hs2] at hm2 hr2
  simp only [Bool.false_eq_true, if_false] at hm2 hr2
  obtain ⟨mw3, rt3, rfl, hsync3, hm3, hr3⟩ := addSeq_growth ops mw2 rt2 sms s3 hsync2 hseq
  constructor
  · intro p l hl
    have hstart : slook (inheritAll mw method) method = some ((slook mw "ALL").getD []) := by
      unfold inheritAll
      rw [slook_sset]
      simp
    obtain ⟨bk2, hbk2, hB2⟩ := hm2 method _ hstart
    obtain ⟨l2, hl2, hsub⟩ := hB2 p l hl
    obtain ⟨bk3, hbk3, hB3⟩ := hm3 method bk2 hbk2
    obtain ⟨l3, hl3, hsub2⟩ := hB3 p l2 hl2
    exact ⟨mw3, bk3, l3, rfl, hbk3, hl3, hsub.trans hsub2⟩
  · intro p l hl
    have hstart : slook (inheritAll rt method) method = some ((slook rt "ALL").getD []) := by
      unfold inheritAll
      rw [slook_sset]
      simp
    obtain ⟨bk2, hbk2, hB2⟩ := hr2 method _ hstart
    obtain ⟨l2, hl2, hsub⟩ := hB2 p l hl
    obtain ⟨bk3, hbk3, hB3⟩ := hr3 method bk2 hbk2
    obtain ⟨l3, hl3, hsub2⟩ := hB3 p l2 hl2
    exact ⟨rt3, bk3, l3, rfl, hbk3, hl3, hsub.trans hsub2⟩

/-- Starting table for the C9 witness: a global `*` middleware under `ALL`. -/
def allStarRouter : RERouter String := addE (REinit String) "ALL" "*" "m1"

def allStarMw : MMap String := (allStarRouter.middleware).getD []

def allStarRt : MMap String := (allStarRouter.routes).getD []

def inheritS2 : RERouter String :=
  addE ⟨some allStarMw, some allStarRt, none⟩ "GET" "/x" "h1"

def inheritS3 : RERouter String :=
  match addSeq inheritS2 [("POST", "/y", "h2")] with
  | .ok s => s
  | .error _ => inheritS2

/-- C9 witness: after GET is first seen, the `ALL` middleware's `*` handler
list is carried into the GET bucket and survives a later registration. -/
theorem all_method_inheritance_witness :
    ∃ mw3 bk l2, inheritS3.middleware = some mw3 ∧ slook mw3 "GET" = some bk ∧
      slook bk "*" = some l2 ∧ [(("m1" : String), 0)].Sublist l2 :=
  (all_method_inheritance String allStarMw allStarRt none "GET" "/x" "h1"
    inheritS2 inheritS3 [("POST", "/y", "h2")]
    (by
      intro k
      rw [show allStarMw = [("ALL", [("*", [("m1", 0)])])] from rfl,
          show allStarRt = [("ALL", [])] from rfl]
      rw [slook_cons, slook_cons]
      by_cases hk : ("ALL" : String) = k <;> simp [hk, slook, List.find?])
    rfl rfl rfl).1 "*" [("m1", 0)] rfl

end Exstack
